import Mathlib

/-!
Shallow embedding of the QuackBus download server (src/server.js, together
with src/services/metadataService.js and src/services/qobuzService.js).

Strings manipulated character-by-character are modelled as `List Char`;
byte payloads as `List Nat`; filesystem paths as `List String` (one entry
per path component, the first entry being the configured root directory).
Timestamps (`Date.now()`) are `Nat` milliseconds.  External effects
(network fetches, the ffmpeg invocation, directory moves) are modelled by
oracle fields in an environment record: each field gives the outcome the
external world would produce for that call.
-/

namespace QuackBus

/-! ## Filename sanitisation (server.js lines 906-913, qobuzService.js 124-131)

JS source, identical at every call site:
```
const sanitize = (str) => {
  if (!str) return 'Unknown';
  return str
    .replace(/[<>:"\/\\|?*]/g, '')
    .replace(/\s+/g, ' ')
    .trim()
    .substring(0, 80);
};
```
-/

/-- The characters removed by the first `replace`: `< > : " / \ | ? *`. -/
def illegal (c : Char) : Bool :=
  c = '<' || c = '>' || c = ':' || c = '"' || c = '/' || c = '\\' ||
  c = '|' || c = '?' || c = '*'

/-- Whitespace as matched by the JS regex class `\s` (the ASCII part;
    the sources only ever feed ASCII-ish metadata through it). -/
def isJsWs (c : Char) : Bool :=
  c = ' ' || c = '\t' || c = '\n' || c = '\r' || c = '\x0b' || c = '\x0c'

/-- Model of `.replace(/\s+/g, ' ')`: every maximal run of whitespace
    characters is replaced by a single space. -/
def collapseWs : List Char → List Char
  | [] => []
  | [c] => if isJsWs c then [' '] else [c]
  | c₁ :: c₂ :: rest =>
    if isJsWs c₁ && isJsWs c₂ then collapseWs (c₂ :: rest)
    else (if isJsWs c₁ then ' ' else c₁) :: collapseWs (c₂ :: rest)

/-- Model of `String.prototype.trim`: strip whitespace from both ends. -/
def trimWs (l : List Char) : List Char :=
  ((l.dropWhile isJsWs).reverse.dropWhile isJsWs).reverse

/-- The `sanitize` helper of server.js (lines 906-913).  `none` models a
    missing (`undefined`/`null`) argument; the empty list models `''`
    (both are falsy in JS, so `!str` returns `'Unknown'` for either). -/
def sanitize : Option (List Char) → List Char
  | none => "Unknown".toList
  | some [] => "Unknown".toList
  | some cs => (trimWs (collapseWs (cs.filter (fun c => !illegal c)))).take 80

/-! ## Quality maps (server.js lines 89-97 and 902-903, qobuzService.js 85-120) -/

/-- server.js `getQualityName` (lines 89-97): label map with
    `'Unknown Quality'` for any unrecognised value. -/
def getQualityName (q : Int) : String :=
  if q = 5 then "MP3 320k"
  else if q = 6 then "CD Quality"
  else if q = 7 then "Hi-Res 96kHz"
  else if q = 27 then "Hi-Res 192kHz"
  else "Unknown Quality"

/-- server.js line 902-903: `const extensions = {5:'mp3',6:'flac',7:'flac',27:'flac'};
    const extension = extensions[quality] || 'flac';`. -/
def extensionFor (q : Int) : String :=
  if q = 5 then "mp3"
  else if q = 6 then "flac"
  else if q = 7 then "flac"
  else if q = 27 then "flac"
  else "flac"

/-- The per-quality record returned by qobuzService.js `getQualityInfo`. -/
structure QualityInfo where
  name : String
  extension : String
  bitrate : Nat
  deriving DecidableEq, Repr

/-- qobuzService.js `getQualityInfo` (lines 85-120):
    `return qualityMap[qualityId] || qualityMap[7];`. -/
def getQualityInfo (q : Int) : QualityInfo :=
  if q = 5 then ⟨"MP3 320k", "mp3", 320⟩
  else if q = 6 then ⟨"CD Quality", "flac", 1411⟩
  else if q = 7 then ⟨"Hi-Res 96kHz", "flac", 2304⟩
  else if q = 27 then ⟨"Hi-Res 192kHz", "flac", 4608⟩
  else ⟨"Hi-Res 96kHz", "flac", 2304⟩

/-! ## Decimal rendering of numbers (JS string coercion of `Date.now()` and
    of track numbers).  Fuel-based so that it reduces definitionally. -/

/-- Decimal digits of `n`, most significant first, with explicit fuel
    (any fuel above `n` gives the true rendering). -/
def decChars (fuel : Nat) (n : Nat) : List Char :=
  match fuel with
  | 0 => []
  | fuel + 1 =>
    if n < 10 then [Nat.digitChar n]
    else decChars fuel (n / 10) ++ [Nat.digitChar (n % 10)]

/-- JS number-to-string coercion for a natural number (`String(n)` /
    template-literal interpolation). -/
def jsNumToString (n : Nat) : List Char := decChars (n + 1) n

/-- Decimal digit value of a character produced by `Nat.digitChar`. -/
def charDigit (c : Char) : Nat :=
  if c = '0' then 0 else if c = '1' then 1 else if c = '2' then 2
  else if c = '3' then 3 else if c = '4' then 4 else if c = '5' then 5
  else if c = '6' then 6 else if c = '7' then 7 else if c = '8' then 8
  else if c = '9' then 9 else 10

/-- Left fold reading a decimal string back into a number. -/
def decVal (l : List Char) : Nat := l.foldl (fun acc c => acc * 10 + charDigit c) 0

/-- JS `String.prototype.padStart(2, '0')` as used for track numbers. -/
def pad2 (l : List Char) : List Char :=
  if l.length < 2 then List.replicate (2 - l.length) '0' ++ l else l

end QuackBus

namespace QuackBus

/-! ### Round-trip and injectivity facts for the decimal rendering -/

theorem charDigit_digitChar {d : Nat} (hd : d < 10) : charDigit (Nat.digitChar d) = d := by
  interval_cases d <;> rfl

theorem decChars_congr : ∀ (n f g : Nat), n < f → n < g →
    decChars f n = decChars g n := by
  intro n
  induction n using Nat.strong_induction_on with
  | _ n ih =>
    intro f g hf hg
    match f, g with
    | f + 1, g + 1 =>
      simp only [decChars]
      by_cases h : n < 10
      · simp [h]
      · have hdiv : n / 10 < n := Nat.div_lt_self (by omega) (by omega)
        simp only [h, if_false]
        rw [ih (n / 10) hdiv f g (by omega) (by omega)]

theorem jsNumToString_big {n : Nat} (h : ¬ n < 10) :
    jsNumToString n = jsNumToString (n / 10) ++ [Nat.digitChar (n % 10)] := by
  have hdiv : n / 10 < n := Nat.div_lt_self (by omega) (by omega)
  show decChars (n + 1) n = _
  simp only [decChars, h, if_false]
  rw [decChars_congr (n / 10) n (n / 10 + 1) (by omega) (by omega)]
  rfl

theorem decVal_jsNumToString (n : Nat) : decVal (jsNumToString n) = n := by
  induction n using Nat.strong_induction_on with
  | _ n ih =>
    by_cases h : n < 10
    · show decVal (decChars (n + 1) n) = n
      simp only [decChars, h, if_true, decVal, List.foldl]
      have := charDigit_digitChar h
      omega
    · have hdiv : n / 10 < n := Nat.div_lt_self (by omega) (by omega)
      rw [jsNumToString_big h]
      show List.foldl _ 0 (jsNumToString (n / 10) ++ [Nat.digitChar (n % 10)]) = n
      rw [List.foldl_append]
      have := ih (n / 10) hdiv
      show (decVal (jsNumToString (n / 10))) * 10 + charDigit (Nat.digitChar (n % 10)) = n
      rw [this, charDigit_digitChar (Nat.mod_lt n (by omega))]
      omega

theorem jsNumToString_injective : Function.Injective jsNumToString := by
  intro a b h
  have := congrArg decVal h
  rwa [decVal_jsNumToString, decVal_jsNumToString] at this

end QuackBus

namespace QuackBus

/-! ### Structural facts about `sanitize` -/

/-- No adjacent pair of whitespace characters (the "no run of multiple
    spaces" property, stated for the whole JS `\s` class). -/
def NoWsRun (l : List Char) : Prop :=
  List.Chain' (fun a b => ¬(isJsWs a = true ∧ isJsWs b = true)) l

theorem mem_collapseWs {c : Char} :
    ∀ {l : List Char}, c ∈ collapseWs l → c ∈ l ∨ c = ' ' := by
  intro l
  induction l with
  | nil => intro h; exact absurd h (by simp [collapseWs])
  | cons c₁ tl ih =>
    match tl with
    | [] =>
      intro h
      simp only [collapseWs] at h
      by_cases hw : isJsWs c₁
      · simp [hw] at h; right; exact h
      · simp [hw] at h; left; simp [h]
    | c₂ :: rest =>
      intro h
      simp only [collapseWs] at h
      by_cases hw : (isJsWs c₁ && isJsWs c₂) = true
      · rw [if_pos hw] at h
        rcases ih h with h | h
        · left; exact List.mem_cons_of_mem _ h
        · right; exact h
      · rw [if_neg hw] at h
        rcases List.mem_cons.mp h with h | h
        · by_cases hw1 : isJsWs c₁
          · simp [hw1] at h; right; exact h
          · simp [hw1] at h; left; simp [h]
        · rcases ih h with h | h
          · left; exact List.mem_cons_of_mem _ h
          · right; exact h

theorem collapseWs_cons_cons_ww {c₁ c₂ : Char} {rest : List Char}
    (h1 : isJsWs c₁ = true) (h2 : isJsWs c₂ = true) :
    collapseWs (c₁ :: c₂ :: rest) = collapseWs (c₂ :: rest) := by
  simp [collapseWs, h1, h2]

theorem collapseWs_cons_cons_w {c₁ c₂ : Char} {rest : List Char}
    (h1 : isJsWs c₁ = true) (h2 : isJsWs c₂ = false) :
    collapseWs (c₁ :: c₂ :: rest) = ' ' :: collapseWs (c₂ :: rest) := by
  simp [collapseWs, h1, h2]

theorem collapseWs_cons_cons_n {c₁ c₂ : Char} {rest : List Char}
    (h1 : isJsWs c₁ = false) :
    collapseWs (c₁ :: c₂ :: rest) = c₁ :: collapseWs (c₂ :: rest) := by
  simp [collapseWs, h1]

theorem collapseWs_cons_shape :
    ∀ (l : List Char) (c : Char), ∃ d tl,
      collapseWs (c :: l) = d :: tl ∧ isJsWs d = isJsWs c := by
  intro l
  induction l with
  | nil =>
    intro c
    cases hw : isJsWs c
    · exact ⟨c, [], by simp [collapseWs, hw], hw⟩
    · exact ⟨' ', [], by simp [collapseWs, hw], by decide⟩
  | cons c₂ rest ih =>
    intro c
    cases hw1 : isJsWs c
    · exact ⟨c, collapseWs (c₂ :: rest), collapseWs_cons_cons_n hw1, hw1⟩
    · cases hw2 : isJsWs c₂
      · exact ⟨' ', collapseWs (c₂ :: rest), collapseWs_cons_cons_w hw1 hw2, by decide⟩
      · obtain ⟨d, tl, heq, hws⟩ := ih c₂
        exact ⟨d, tl, (collapseWs_cons_cons_ww hw1 hw2).trans heq, hws.trans hw2⟩

theorem noWsRun_collapseWs : ∀ (l : List Char), NoWsRun (collapseWs l) := by
  intro l
  induction l with
  | nil => simp [collapseWs, NoWsRun]
  | cons c₁ tl ih =>
    match tl with
    | [] =>
      cases hw : isJsWs c₁ <;> simp [collapseWs, NoWsRun, hw]
    | c₂ :: rest =>
      show NoWsRun (collapseWs (c₁ :: c₂ :: rest))
      cases hw1 : isJsWs c₁
      · rw [collapseWs_cons_cons_n hw1]
        obtain ⟨d, tl2, heq, hws⟩ := collapseWs_cons_shape rest c₂
        rw [heq]
        unfold NoWsRun at ih ⊢
        rw [List.chain'_cons]
        refine ⟨fun hp => ?_, by rw [← heq]; exact ih⟩
        exact absurd hp.1 (by rw [hw1]; simp)
      · cases hw2 : isJsWs c₂
        · rw [collapseWs_cons_cons_w hw1 hw2]
          obtain ⟨d, tl2, heq, hws⟩ := collapseWs_cons_shape rest c₂
          rw [heq]
          unfold NoWsRun at ih ⊢
          rw [List.chain'_cons]
          refine ⟨fun hp => ?_, by rw [← heq]; exact ih⟩
          have h2 := hp.2
          rw [hws, hw2] at h2
          exact absurd h2 (by simp)
        · rw [collapseWs_cons_cons_ww hw1 hw2]
          exact ih

theorem noWsRun_suffix {l₁ l : List Char} (h : NoWsRun l) (hs : l₁ <:+ l) :
    NoWsRun l₁ := List.Chain'.suffix h hs

theorem noWsRun_prefix {l₁ l : List Char} (h : NoWsRun l) (hs : l₁ <+: l) :
    NoWsRun l₁ := List.Chain'.prefix h hs

theorem noWsRun_reverse {l : List Char} (h : NoWsRun l) : NoWsRun l.reverse := by
  unfold NoWsRun at h ⊢
  rw [List.chain'_reverse]
  have : (fun a b : Char => ¬(isJsWs a = true ∧ isJsWs b = true)) =
      flip (fun a b : Char => ¬(isJsWs a = true ∧ isJsWs b = true)) := by
    funext a b; unfold flip; simp [and_comm]
  rwa [← this]

theorem noWsRun_trimWs {l : List Char} (h : NoWsRun l) : NoWsRun (trimWs l) := by
  unfold trimWs
  apply noWsRun_reverse
  apply noWsRun_suffix (noWsRun_reverse (noWsRun_suffix h (List.dropWhile_suffix _)))
  exact List.dropWhile_suffix _

theorem mem_trimWs {c : Char} {l : List Char} (h : c ∈ trimWs l) : c ∈ l := by
  unfold trimWs at h
  rw [List.mem_reverse] at h
  have h2 := (List.dropWhile_suffix _).subset h
  rw [List.mem_reverse] at h2
  exact (List.dropWhile_suffix _).subset h2

/-- Every character of a sanitised component is either a character of the
    input or the single space introduced by whitespace collapsing. -/
theorem mem_sanitize_some {c : Char} {cs : List Char} (hne : cs ≠ [])
    (h : c ∈ sanitize (some cs)) : (c ∈ cs ∧ illegal c = false) ∨ c = ' ' := by
  match cs, hne with
  | c₀ :: cs₀, _ =>
    simp only [sanitize] at h
    have h1 := List.take_subset _ _ h
    have h2 := mem_trimWs h1
    rcases mem_collapseWs h2 with h3 | h3
    · left
      have := List.mem_filter.mp h3
      refine ⟨this.1, ?_⟩
      have := this.2; simp only [Bool.not_eq_true'] at this; exact this
    · right; exact h3

end QuackBus

namespace QuackBus

/-! ## Realtime events, paths and filesystem operations -/

/-- Realtime events sent by server.js `broadcast`: `download_update`
    carries the job object (we keep its status and progress fields),
    `download_removed` carries the id only. -/
inductive Event where
  | update (id : String) (status : String) (progress : Nat)
  | removed (id : String)
  deriving DecidableEq, Repr

/-- Filesystem paths, one component per entry; the head component is the
    configured root directory string. -/
abbrev Path := List String

/-- Default `TEMP_PATH` (server.js line 936). -/
def tempRoot : Path := ["/app/temp"]

/-- Default `DOWNLOAD_PATH` (server.js line 935). -/
def musicRoot : Path := ["/app/music"]

/-- Abstract trace of the filesystem-affecting calls a pipeline makes, in
    program order.  `ffmpegTag` is the external ffmpeg invocation: its
    second argument is the path the output file is produced at. -/
inductive FsOp where
  | ensureDir (p : Path)
  | writeFile (p : Path)
  | ffmpegTag (input : Path) (output : Path)
  | remove (p : Path)
  | moveDir (src : Path) (dst : Path)
  | copyDir (src : Path) (dst : Path)
  deriving DecidableEq, Repr

/-- JS `a || b` for an optional string: the default is used when the value
    is absent or the empty string (both falsy). -/
def jsOr (o : Option String) (d : String) : String :=
  match o with
  | some s => if s = "" then d else s
  | none => d

/-- `sanitize` applied to a JS string value, as a `String`. -/
def sanitizeStr (s : String) : String :=
  String.mk (sanitize (some s.toList))

/-- JS `Math.round(num / den)` over exact rationals (floating-point
    division in the source; exact here — the claims only use its
    monotonicity and range, which agree). -/
def jsRound (num den : Nat) : Nat := (2 * num + den) / (2 * den)

/-- Album folder name: `"artist - title"` with an optional `" (year)"`
    suffix (server.js lines 450 and 932). Arguments are pre-sanitised. -/
def albumFolderNameOf (artist title : String) (year : Option Nat) : String :=
  match year with
  | some y => artist ++ " - " ++ title ++ " (" ++ String.mk (jsNumToString y) ++ ")"
  | none => artist ++ " - " ++ title

/-! ## metadataService.embedMetadata (metadataService.js lines 10-80)

The ffmpeg invocation has no timeout here; on an ffmpeg `error` event the
service falls back to `fs.copy(inputFile, outputFile)` and only rejects
when that copy also fails. -/

/-- Bytes present at the output path after `embedMetadata`, given the
    outcomes of the ffmpeg invocation and of the fallback copy, the input
    file's bytes, and the bytes ffmpeg would produce on success.  `none`
    means the call rejected (both tagging and the fallback copy failed). -/
def embedMetadata (ffmpegOk copyOk : Bool) (input tagged : List Nat) :
    Option (List Nat) :=
  if ffmpegOk then some tagged
  else if copyOk then some input
  else none

/-! ## Cancellation and status query (server.js lines 1136-1168) -/

/-- `DELETE /api/download/:id`: when the id is registered, delete it and
    broadcast one `download_removed`; otherwise 404 with no event.
    The registry is modelled as the list of registered ids. -/
def cancelDownload (reg : List String) (id : String) : List String × List Event :=
  if id ∈ reg then (reg.erase id, [Event.removed id]) else (reg, [])

/-- `GET /api/downloads`: the active list is exactly the registry values. -/
def listActive (reg : List String) : List String := reg

/-! ## Single-track pipeline (`startFileDownloadWithProcessing`,
    server.js lines 868-1031)

External outcomes are an environment: whether the payload fetch succeeds,
whether the cover fetch succeeds (its failures are swallowed), and the
ffmpeg outcome (success, process error, or the 30-second timeout kill).
`cancelled` states whether the id was removed from the registry while the
pipeline was in flight: the failure path looks the job up in the registry
(line 1015) and does nothing when it is gone, while the success path uses
its closure variable and never consults the registry. -/

/-- Outcome of the `processWithFFmpeg` invocation (server.js 1034-1133):
    it either resolves, rejects with a process error, or is killed by the
    30-second timeout and rejects with `FFmpeg processing timeout`. -/
inductive TagOutcome where
  | ok
  | procError
  | timeout
  deriving DecidableEq, Repr

/-- Track metadata as used for path building (server.js lines 916-932). -/
structure TrackMeta where
  title : Option String
  artist : Option String
  albumTitle : Option String
  trackNumber : Option Nat
  year : Option Nat
  deriving DecidableEq, Repr

/-- External-world outcomes for one single-track job. -/
structure TrackEnv where
  meta : TrackMeta
  quality : Int
  fetchOk : Bool
  coverOk : Bool
  tag : TagOutcome
  deriving DecidableEq, Repr

/-- Observable result of running the single-track pipeline: the terminal
    status recorded on a job object (none when the job was cancelled and
    the failure path found no registry entry), the broadcast events in
    order (including the eviction-timer broadcast), the ids appended to
    history, and the filesystem-operation trace. -/
structure TrackRun where
  finalStatus : Option String
  events : List Event
  history : List String
  ops : List FsOp
  deriving DecidableEq, Repr

/-- JS `x || 1` for the track number. -/
def jsNumOr1 (o : Option Nat) : Nat :=
  match o with
  | some n => if n = 0 then 1 else n
  | none => 1

/-- Sanitised track file name `NN - Title.ext` (server.js line 933). -/
def trackFileNameOf (m : TrackMeta) (q : Int) : String :=
  String.mk (pad2 (jsNumToString (jsNumOr1 m.trackNumber))) ++ " - " ++
    sanitizeStr (jsOr m.title "Unknown Track") ++ "." ++ extensionFor q

/-- Sanitised album folder name for a single-track job (server.js 917-932). -/
def trackAlbumFolderOf (m : TrackMeta) : String :=
  albumFolderNameOf (sanitizeStr (jsOr m.artist "Unknown Artist"))
    (sanitizeStr (jsOr m.albumTitle "Unknown Album")) m.year

/-- Everything the pipeline does after registering the job and sending the
    initial `downloading`/0 broadcast. -/
def runTrackJobTail (id : String) (env : TrackEnv) (cancelled : Bool) : TrackRun :=
  if env.fetchOk = false then
    -- the stream payload fetch failed before any path was built or any
    -- directory created; catch block: no temp file exists, look the job
    -- up in the registry and record the failure only when still present
    if cancelled then ⟨none, [], [], []⟩
    else ⟨some "failed", [Event.update id "failed" 0], [id], []⟩
  else
    let ext := extensionFor env.quality
    let folder := trackAlbumFolderOf env.meta
    let albumDir : Path := musicRoot ++ [folder]
    let tempP : Path := tempRoot ++ [id ++ "." ++ ext]
    let finalP : Path := musicRoot ++ [folder, trackFileNameOf env.meta env.quality]
    let baseOps : List FsOp :=
      [FsOp.ensureDir tempRoot, FsOp.ensureDir albumDir] ++
      (if env.coverOk then [FsOp.writeFile (albumDir ++ ["Cover.jpg"])] else []) ++
      [FsOp.writeFile tempP]
    match env.tag with
    | TagOutcome.ok =>
      -- tag, remove the temp file, mark completed, append history,
      -- broadcast, evict after 15 s with a download_removed broadcast
      ⟨some "completed",
       [Event.update id "processing" 50, Event.update id "completed" 100,
        Event.removed id],
       [id],
       baseOps ++ [FsOp.ffmpegTag tempP finalP, FsOp.remove tempP]⟩
    | _ =>
      -- ffmpeg process error or 30 s timeout: the rejection propagates to
      -- the catch block, which removes the temp file; no fallback copy
      -- exists on this path; the failure is recorded only when the job is
      -- still registered, and eviction broadcasts nothing
      if cancelled then
        ⟨none, [Event.update id "processing" 50],
         [], baseOps ++ [FsOp.ffmpegTag tempP finalP, FsOp.remove tempP]⟩
      else
        ⟨some "failed",
         [Event.update id "processing" 50, Event.update id "failed" 50],
         [id], baseOps ++ [FsOp.ffmpegTag tempP finalP, FsOp.remove tempP]⟩

/-- The full single-track pipeline: register, broadcast `downloading`/0,
    then the tail. -/
def runTrackJob (id : String) (env : TrackEnv) (cancelled : Bool) : TrackRun :=
  let t := runTrackJobTail id env cancelled
  ⟨t.finalStatus, Event.update id "downloading" 0 :: t.events, t.history, t.ops⟩

/-- Cancel-then-finish scenario: the job registers and broadcasts, the
    cancel endpoint runs (registry `[id]`), then the in-flight pipeline
    runs to its end.  Returns the active-id list right after the cancel,
    the full event trace, and the history appends. -/
def cancelThenFinishTrack (id : String) (env : TrackEnv) :
    List String × List Event × List String :=
  let c := cancelDownload [id] id
  let t := runTrackJobTail id env true
  (listActive c.1, Event.update id "downloading" 0 :: c.2 ++ t.events, t.history)

/-! ## Submission ids (server.js lines 308 and 382) -/

/-- Job kinds accepted by the two download endpoints. -/
inductive JobKind where
  | track
  | album
  deriving DecidableEq, Repr

/-- One accepted download submission.  `seq` distinguishes distinct
    submissions that the server accepted at the same millisecond. -/
structure Submission where
  kind : JobKind
  nowMs : Nat
  seq : Nat
  deriving DecidableEq, Repr

/-- The generated job id: `'download-' + Date.now()` for a track job
    (line 308), `'album-' + Date.now()` for an album job (line 382). -/
def submissionId (s : Submission) : String :=
  match s.kind with
  | JobKind.track => String.mk ("download-".toList ++ jsNumToString s.nowMs)
  | JobKind.album => String.mk ("album-".toList ++ jsNumToString s.nowMs)

end QuackBus

namespace QuackBus

/-! ## Album job: per-track nested retry machinery

`startAlbumDownload` (server.js 464-533) runs, per track, an outer
`while (attempt < 3)` loop whose body resolves the stream URL and then
calls `downloadSingleTrackForAlbumToTemp` (lines 632-730), which has its
own inner `for (attempt = 1..3)` retry loop around the payload fetch and
ffmpeg processing.  Both loops wait `2^attempt * 1000` ms before every
retry (so after the 1st and 2nd failed attempts only). -/

/-- External outcomes for one album track, indexed by attempt number:
    `resolveOk a` is the stream-URL resolution outcome at outer attempt
    `a`; `fetchOk o a` / `tagOk o a` are the payload-fetch and ffmpeg
    outcomes at inner attempt `a` of outer attempt `o` (1-based). -/
structure TrackAttemptEnv where
  resolveOk : Nat → Bool
  fetchOk : Nat → Nat → Bool
  tagOk : Nat → Nat → Bool

/-- Result of the inner retry loop of `downloadSingleTrackForAlbumToTemp`:
    overall success, number of payload-fetch attempts made, backoff waits
    (ms, in order), and the filesystem operations performed. -/
structure InnerRes where
  ok : Bool
  fetches : Nat
  waits : List Nat
  ops : List FsOp
  deriving DecidableEq, Repr

/-- One inner attempt's filesystem operations when the payload fetch
    succeeded: write the per-track temp file, invoke ffmpeg targeting the
    final name inside the staging directory, then remove the temp file
    (the removal runs both on success, line 685, and in the catch block,
    lines 707-717). -/
def innerAttemptOps (tempP finalP : Path) : List FsOp :=
  [FsOp.writeFile tempP, FsOp.ffmpegTag tempP finalP, FsOp.remove tempP]

/-- The inner retry loop from attempt `a` with `fuel` attempts remaining
    (`fuel = 0` is unreachable from the real entry point). -/
def innerAux (env : TrackAttemptEnv) (o : Nat) (tempP finalP : Path) :
    Nat → Nat → InnerRes
  | _, 0 => ⟨false, 0, [], []⟩
  | a, fuel + 1 =>
    if env.fetchOk o a = false then
      -- `response.ok` was false: one fetch attempt, nothing written
      if fuel = 0 then ⟨false, 1, [], []⟩
      else
        let r := innerAux env o tempP finalP (a + 1) fuel
        ⟨r.ok, r.fetches + 1, (2 ^ a * 1000) :: r.waits, r.ops⟩
    else if env.tagOk o a then
      ⟨true, 1, [], innerAttemptOps tempP finalP⟩
    else
      -- ffmpeg rejected: catch removes the temp file, then retries after
      -- the backoff wait, or rethrows on the last attempt
      if fuel = 0 then ⟨false, 1, [], innerAttemptOps tempP finalP⟩
      else
        let r := innerAux env o tempP finalP (a + 1) fuel
        ⟨r.ok, r.fetches + 1, (2 ^ a * 1000) :: r.waits,
         innerAttemptOps tempP finalP ++ r.ops⟩

/-- Entry point of the inner loop: `for (attempt = 1; attempt <= 3; ...)`. -/
def runInner (env : TrackAttemptEnv) (o : Nat) (tempP finalP : Path) : InnerRes :=
  innerAux env o tempP finalP 1 3

/-- Result of the outer per-track loop: overall success, outer attempts
    made (= stream-URL resolution attempts), total payload-fetch attempts,
    all backoff waits (inner and outer, in order), filesystem operations. -/
structure OuterRes where
  ok : Bool
  outerAttempts : Nat
  fetches : Nat
  waits : List Nat
  ops : List FsOp
  deriving DecidableEq, Repr

/-- The outer retry loop (`while (attempt < maxRetries && !trackCompleted)`)
    from attempt `a` with `fuel` attempts remaining. -/
def outerAux (env : TrackAttemptEnv) (tempP finalP : Path) :
    Nat → Nat → OuterRes
  | _, 0 => ⟨false, 0, 0, [], []⟩
  | a, fuel + 1 =>
    if env.resolveOk a = false then
      -- stream-URL resolution failed: caught by the per-track catch
      if fuel = 0 then ⟨false, 1, 0, [], []⟩
      else
        let r := outerAux env tempP finalP (a + 1) fuel
        ⟨r.ok, r.outerAttempts + 1, r.fetches, (2 ^ a * 1000) :: r.waits, r.ops⟩
    else
      let i := runInner env a tempP finalP
      if i.ok then ⟨true, 1, i.fetches, i.waits, i.ops⟩
      else if fuel = 0 then ⟨false, 1, i.fetches, i.waits, i.ops⟩
      else
        let r := outerAux env tempP finalP (a + 1) fuel
        ⟨r.ok, r.outerAttempts + 1, i.fetches + r.fetches,
         i.waits ++ (2 ^ a * 1000) :: r.waits, i.ops ++ r.ops⟩

/-- Entry point of the outer per-track loop (3 attempts). -/
def runTrackRetries (env : TrackAttemptEnv) (tempP finalP : Path) : OuterRes :=
  outerAux env tempP finalP 1 3

/-! ## Album job pipeline (`startAlbumDownload`, server.js 404-629) -/

/-- One track of an album job: its catalog id, raw title, raw track
    number, and the external outcomes of its attempts. -/
structure AlbumTrack where
  tid : String
  title : String
  num : Nat
  att : TrackAttemptEnv

/-- External outcomes and metadata for one album job. -/
structure AlbumEnv where
  artist : String
  albumTitle : String
  year : Option Nat
  quality : Int
  coverOk : Bool
  tracks : List AlbumTrack
  moveOk : Bool
  copyOk : Bool

/-- Sanitised album folder name (server.js 439-450). -/
def albumFolderNm (env : AlbumEnv) : String :=
  albumFolderNameOf (sanitizeStr (jsOr (some env.artist) "Unknown Artist"))
    (sanitizeStr (jsOr (some env.albumTitle) "Unknown Album")) env.year

/-- `TEMP_PATH/album_{id}` (server.js 556, 621). -/
def tempAlbumRootOf (id : String) : Path := tempRoot ++ ["album_" ++ id]

/-- The staging directory `TEMP_PATH/album_{id}/{albumFolderName}`
    (server.js 451). -/
def stagingDirOf (id : String) (env : AlbumEnv) : Path :=
  tempAlbumRootOf id ++ [albumFolderNm env]

/-- `DOWNLOAD_PATH/{albumFolderName}` (server.js 452). -/
def finalDirOf (env : AlbumEnv) : Path := musicRoot ++ [albumFolderNm env]

/-- Final file name of an album track inside the staging directory
    (server.js 663-665). -/
def albumTrackFileName (t : AlbumTrack) (q : Int) : String :=
  String.mk (pad2 (jsNumToString (jsNumOr1 (some t.num)))) ++ " - " ++
    sanitizeStr (jsOr (some t.title) "Unknown Track") ++ "." ++ extensionFor q

/-- Per-track temp file inside the staging directory (server.js 668):
    `temp_{downloadId}_track_{trackId}.{ext}`. -/
def albumTrackTempName (id : String) (t : AlbumTrack) (q : Int) : String :=
  "temp_" ++ id ++ "_track_" ++ t.tid ++ "." ++ extensionFor q

/-- Accumulated result of the per-track loop over the remaining tracks. -/
structure AlbumLoopRes where
  completed : Nat
  failed : Nat
  events : List Event
  ops : List FsOp
  files : List String
  deriving DecidableEq, Repr

/-- The per-track loop (server.js 464-533), carrying the number of tracks
    completed so far (`done`); `n` is the album's total track count.
    Per outer attempt one `download_update` is broadcast before the
    attempt (line 479) and one after each backoff wait (line 522), all at
    the current progress; on success the progress advances to
    `round(completed/total*100)` and is broadcast (lines 503-505); on
    exhausted retries only the failed counter changes, with no broadcast. -/
def albumLoop (id : String) (env : AlbumEnv) (n : Nat) :
    List AlbumTrack → Nat → AlbumLoopRes
  | [], done => ⟨done, 0, [], [], []⟩
  | t :: rest, done =>
    let p := jsRound (done * 100) n
    let staging := stagingDirOf id env
    let tempP : Path := staging ++ [albumTrackTempName id t env.quality]
    let finalP : Path := staging ++ [albumTrackFileName t env.quality]
    let r := runTrackRetries t.att tempP finalP
    let attemptEvs : List Event :=
      List.replicate (r.outerAttempts + (r.outerAttempts - 1))
        (Event.update id "downloading track" p)
    if r.ok then
      let acc := albumLoop id env n rest (done + 1)
      ⟨acc.completed, acc.failed,
       attemptEvs ++ Event.update id "downloading track" (jsRound ((done + 1) * 100) n) :: acc.events,
       r.ops ++ acc.ops,
       albumTrackFileName t env.quality :: acc.files⟩
    else
      let acc := albumLoop id env n rest done
      ⟨acc.completed, acc.failed + 1, attemptEvs ++ acc.events,
       r.ops ++ acc.ops, acc.files⟩

/-- Observable result of an album job. -/
structure AlbumRun where
  status : String
  completedTracks : Nat
  failedTracks : Nat
  progress : Nat
  events : List Event
  ops : List FsOp
  finalFolder : List String
  history : List String
  deriving DecidableEq, Repr

/-- The album pipeline: create the staging directory, fetch cover art into
    it, run the per-track loop, then promote the staging directory
    (move, else recursive copy + remove, else the job fails), clean up the
    temp album root, mark completed/failed, append history, broadcast, and
    schedule eviction (a `download_removed` broadcast after 20 s on the
    success path only, lines 595-598 versus 615-617). -/
def runAlbumJob (id : String) (env : AlbumEnv) : AlbumRun :=
  let n := env.tracks.length
  let staging := stagingDirOf id env
  let L := albumLoop id env n env.tracks 0
  let pEnd := jsRound (L.completed * 100) n
  let coverOps : List FsOp :=
    if env.coverOk then [FsOp.writeFile (staging ++ ["Cover.jpg"])] else []
  let coverFiles : List String := if env.coverOk then ["Cover.jpg"] else []
  let baseOps : List FsOp := FsOp.ensureDir staging :: coverOps ++ L.ops
  let files : List String := coverFiles ++ L.files
  let headEvs : List Event := Event.update id "downloading" 0 :: L.events ++
    [Event.update id "moving files" pEnd]
  if env.moveOk then
    ⟨"completed", L.completed, L.failed, 100,
     headEvs ++ [Event.update id "completed" 100, Event.removed id],
     baseOps ++ [FsOp.moveDir staging (finalDirOf env),
       FsOp.remove (tempAlbumRootOf id)],
     files, [id]⟩
  else if env.copyOk then
    ⟨"completed", L.completed, L.failed, 100,
     headEvs ++ [Event.update id "completed" 100, Event.removed id],
     baseOps ++ [FsOp.copyDir staging (finalDirOf env), FsOp.remove staging],
     files, [id]⟩
  else
    -- both the move and the copy fallback threw: the outer catch marks
    -- the job failed, appends history, broadcasts the failed update, and
    -- the eviction timer deletes the registry entry with no broadcast;
    -- the temp album root is removed, staged per-track work is lost
    ⟨"failed", L.completed, L.failed, pEnd,
     headEvs ++ [Event.update id "failed" pEnd],
     baseOps ++ [FsOp.remove (tempAlbumRootOf id)],
     [], [id]⟩

/-- Progress values carried by the `download_update` events of a trace. -/
def progressSeq (evs : List Event) : List Nat :=
  evs.filterMap fun e =>
    match e with
    | Event.update _ _ p => some p
    | Event.removed _ => none

end QuackBus

namespace QuackBus

/-! ### Monotone-sequence machinery for progress traces -/

/-- Every element of `l` is at least `p`, and `l` is non-decreasing. -/
def monoFrom (p : Nat) : List Nat → Prop
  | [] => True
  | q :: rest => p ≤ q ∧ monoFrom q rest

theorem monoFrom_of_le {p p' : Nat} {l : List Nat} (h : p' ≤ p)
    (hm : monoFrom p l) : monoFrom p' l := by
  match l with
  | [] => trivial
  | q :: rest => exact ⟨le_trans h hm.1, hm.2⟩

theorem monoFrom_replicate_append {p : Nat} {l : List Nat} (k : Nat)
    (h : monoFrom p l) : monoFrom p (List.replicate k p ++ l) := by
  induction k with
  | zero => simpa using h
  | succ k ih => exact ⟨le_refl p, ih⟩

theorem monoFrom_chain {l : List Nat} :
    ∀ {p : Nat}, monoFrom p l → List.Chain' (fun a b => a ≤ b) l := by
  induction l with
  | nil => intro p _; simp
  | cons q rest ih =>
    intro p h
    match rest with
    | [] => simp
    | r :: rest2 =>
      rw [List.chain'_cons]
      exact ⟨h.2.1, ih h.2⟩

theorem monoFrom_le_mem {l : List Nat} :
    ∀ {p x : Nat}, monoFrom p l → x ∈ l → p ≤ x := by
  induction l with
  | nil => intro p x _ hx; exact absurd hx (by simp)
  | cons q rest ih =>
    intro p x h hx
    rcases List.mem_cons.mp hx with rfl | hx
    · exact h.1
    · exact le_trans h.1 (ih h.2 hx)

/-! ### Arithmetic facts about the progress rounding -/

theorem jsRound_mono {m m' d : Nat} (h : m ≤ m') : jsRound m d ≤ jsRound m' d :=
  Nat.div_le_div_right (by omega)

theorem jsRound_zero (n : Nat) : jsRound 0 n = 0 := by
  unfold jsRound
  match n with
  | 0 => rfl
  | n + 1 => exact Nat.div_eq_of_lt (by omega)

theorem jsRound_hundred {n : Nat} (h : 0 < n) : jsRound (n * 100) n = 100 := by
  unfold jsRound
  have he : 2 * (n * 100) + n = n + 100 * (2 * n) := by ring
  rw [he, Nat.add_mul_div_right _ _ (show 0 < 2 * n by omega),
    Nat.div_eq_of_lt (by omega)]

theorem jsRound_le_100 {k n : Nat} (h : k ≤ n) : jsRound (k * 100) n ≤ 100 := by
  rcases Nat.eq_zero_or_pos n with h0 | h0
  · have : k = 0 := by omega
    subst this
    rw [jsRound_zero]
    omega
  · calc jsRound (k * 100) n ≤ jsRound (n * 100) n := jsRound_mono (by omega)
      _ = 100 := jsRound_hundred h0

/-! ### Bounds on the nested retry loops -/

theorem innerAux_fetches_le (env : TrackAttemptEnv) (o : Nat) (tp fp : Path) :
    ∀ (fuel a : Nat), (innerAux env o tp fp a fuel).fetches ≤ fuel := by
  intro fuel
  induction fuel with
  | zero => intro a; simp [innerAux]
  | succ fuel ih =>
    intro a
    simp only [innerAux]
    split
    · split
      · simp
      · simpa using Nat.succ_le_succ (ih (a + 1))
    · split
      · simp
      · split
        · simp
        · simpa using Nat.succ_le_succ (ih (a + 1))

theorem innerAux_waits_mem (env : TrackAttemptEnv) (o : Nat) (tp fp : Path) :
    ∀ (fuel a w : Nat), w ∈ (innerAux env o tp fp a fuel).waits →
      ∃ k, a ≤ k ∧ k + 1 < a + fuel ∧ w = 2 ^ k * 1000 := by
  intro fuel
  induction fuel with
  | zero => intro a w hw; exact absurd hw (by simp [innerAux])
  | succ fuel ih =>
    intro a w hw
    simp only [innerAux] at hw
    split at hw
    · split at hw
      · exact absurd hw (by simp)
      · rcases List.mem_cons.mp hw with rfl | hw
        · exact ⟨a, le_refl a, by omega, rfl⟩
        · obtain ⟨k, hk1, hk2, hk3⟩ := ih (a + 1) w hw
          exact ⟨k, by omega, by omega, hk3⟩
    · split at hw
      · exact absurd hw (by simp)
      · split at hw
        · exact absurd hw (by simp)
        · rcases List.mem_cons.mp hw with rfl | hw
          · exact ⟨a, le_refl a, by omega, rfl⟩
          · obtain ⟨k, hk1, hk2, hk3⟩ := ih (a + 1) w hw
            exact ⟨k, by omega, by omega, hk3⟩

theorem innerAux_ops_subset (env : TrackAttemptEnv) (o : Nat) (tp fp : Path) :
    ∀ (fuel a : Nat), ∀ op ∈ (innerAux env o tp fp a fuel).ops,
      op ∈ innerAttemptOps tp fp := by
  intro fuel
  induction fuel with
  | zero => intro a op hop; exact absurd hop (by simp [innerAux])
  | succ fuel ih =>
    intro a op hop
    simp only [innerAux] at hop
    split at hop
    · split at hop
      · exact absurd hop (by simp)
      · exact ih (a + 1) op hop
    · split at hop
      · exact hop
      · split at hop
        · exact hop
        · rcases List.mem_append.mp hop with hop | hop
          · exact hop
          · exact ih (a + 1) op hop

theorem runInner_fetches_le (env : TrackAttemptEnv) (o : Nat) (tp fp : Path) :
    (runInner env o tp fp).fetches ≤ 3 :=
  innerAux_fetches_le env o tp fp 3 1

theorem runInner_waits (env : TrackAttemptEnv) (o : Nat) (tp fp : Path) :
    ∀ w ∈ (runInner env o tp fp).waits, w = 2000 ∨ w = 4000 := by
  intro w hw
  obtain ⟨k, hk1, hk2, hk3⟩ := innerAux_waits_mem env o tp fp 3 1 w hw
  have : k = 1 ∨ k = 2 := by omega
  rcases this with rfl | rfl
  · left; rw [hk3]; norm_num
  · right; rw [hk3]; norm_num

theorem outerAux_attempts_le (env : TrackAttemptEnv) (tp fp : Path) :
    ∀ (fuel a : Nat), (outerAux env tp fp a fuel).outerAttempts ≤ fuel := by
  intro fuel
  induction fuel with
  | zero => intro a; simp [outerAux]
  | succ fuel ih =>
    intro a
    simp only [outerAux]
    split
    · split
      · simp
      · simpa using Nat.succ_le_succ (ih (a + 1))
    · split
      · simp
      · split
        · simp
        · simpa using Nat.succ_le_succ (ih (a + 1))

theorem outerAux_fetches_le (env : TrackAttemptEnv) (tp fp : Path) :
    ∀ (fuel a : Nat), (outerAux env tp fp a fuel).fetches ≤ 3 * fuel := by
  intro fuel
  induction fuel with
  | zero => intro a; simp [outerAux]
  | succ fuel ih =>
    intro a
    simp only [outerAux]
    split
    · split
      · simp
      · have := ih (a + 1); simp only []
        calc (outerAux env tp fp (a + 1) fuel).fetches ≤ 3 * fuel := this
          _ ≤ 3 * (fuel + 1) := by omega
    · split
      · have := runInner_fetches_le env a tp fp
        simp only []
        omega
      · split
        · have := runInner_fetches_le env a tp fp
          simp only []
          omega
        · have h1 := runInner_fetches_le env a tp fp
          have h2 := ih (a + 1)
          simp only []
          omega

theorem outerAux_waits (env : TrackAttemptEnv) (tp fp : Path) :
    ∀ (fuel a : Nat), 0 < a → ∀ w ∈ (outerAux env tp fp a fuel).waits,
      w = 2000 ∨ w = 4000 ∨ ∃ k, a ≤ k ∧ k + 1 < a + fuel ∧ w = 2 ^ k * 1000 := by
  intro fuel
  induction fuel with
  | zero => intro a _ w hw; exact absurd hw (by simp [outerAux])
  | succ fuel ih =>
    intro a ha w hw
    simp only [outerAux] at hw
    split at hw
    · split at hw
      · exact absurd hw (by simp)
      · rcases List.mem_cons.mp hw with rfl | hw
        · right; right; exact ⟨a, le_refl a, by omega, rfl⟩
        · rcases ih (a + 1) (by omega) w hw with h | h | ⟨k, hk1, hk2, hk3⟩
          · left; exact h
          · right; left; exact h
          · right; right; exact ⟨k, by omega, by omega, hk3⟩
    · split at hw
      · rcases runInner_waits env a tp fp w hw with h | h
        · left; exact h
        · right; left; exact h
      · split at hw
        · rcases runInner_waits env a tp fp w hw with h | h
          · left; exact h
          · right; left; exact h
        · rcases List.mem_append.mp hw with hw | hw
          · rcases runInner_waits env a tp fp w hw with h | h
            · left; exact h
            · right; left; exact h
          · rcases List.mem_cons.mp hw with rfl | hw
            · right; right; exact ⟨a, le_refl a, by omega, rfl⟩
            · rcases ih (a + 1) (by omega) w hw with h | h | ⟨k, hk1, hk2, hk3⟩
              · left; exact h
              · right; left; exact h
              · right; right; exact ⟨k, by omega, by omega, hk3⟩

theorem outerAux_ops_subset (env : TrackAttemptEnv) (tp fp : Path) :
    ∀ (fuel a : Nat), ∀ op ∈ (outerAux env tp fp a fuel).ops,
      op ∈ innerAttemptOps tp fp := by
  intro fuel
  induction fuel with
  | zero => intro a op hop; exact absurd hop (by simp [outerAux])
  | succ fuel ih =>
    intro a op hop
    simp only [outerAux] at hop
    split at hop
    · split at hop
      · exact absurd hop (by simp)
      · exact ih (a + 1) op hop
    · split at hop
      · exact innerAux_ops_subset env a tp fp 3 1 op hop
      · split at hop
        · exact innerAux_ops_subset env a tp fp 3 1 op hop
        · rcases List.mem_append.mp hop with hop | hop
          · exact innerAux_ops_subset env a tp fp 3 1 op hop
          · exact ih (a + 1) op hop

theorem outerAux_fail_attempts (env : TrackAttemptEnv) (tp fp : Path) :
    ∀ (fuel a : Nat), (outerAux env tp fp a fuel).ok = false →
      (outerAux env tp fp a fuel).outerAttempts = fuel := by
  intro fuel
  induction fuel with
  | zero => intro a _; simp [outerAux]
  | succ fuel ih =>
    intro a hok
    by_cases hr : env.resolveOk a = false
    · by_cases h0 : fuel = 0
      · subst h0; simp [outerAux, hr]
      · simp only [outerAux, hr, if_true, h0, if_false] at hok ⊢
        rw [ih (a + 1) hok]
    · by_cases hio : (runInner env a tp fp).ok = true
      · simp [outerAux, hr, hio] at hok
      · by_cases h0 : fuel = 0
        · subst h0; simp [outerAux, hr, hio]
        · simp only [outerAux, hr, if_false, hio, h0, if_true,
            Bool.true_eq_false, Bool.false_eq_true] at hok ⊢
          rw [ih (a + 1) hok]

/-- The per-track retry structure, summarised at the real entry point:
    at most 3 stream-URL resolution attempts, at most 9 payload-fetch
    attempts, every backoff wait is 2 s or 4 s (8 s never occurs), every
    filesystem operation is one of the three per-attempt operations, and
    a track that never succeeds used exactly 3 outer attempts. -/
theorem runTrackRetries_summary (env : TrackAttemptEnv) (tp fp : Path) :
    (runTrackRetries env tp fp).outerAttempts ≤ 3 ∧
    (runTrackRetries env tp fp).fetches ≤ 9 ∧
    (∀ w ∈ (runTrackRetries env tp fp).waits, w = 2000 ∨ w = 4000) ∧
    (∀ op ∈ (runTrackRetries env tp fp).ops, op ∈ innerAttemptOps tp fp) ∧
    ((runTrackRetries env tp fp).ok = false →
      (runTrackRetries env tp fp).outerAttempts = 3) := by
  refine ⟨outerAux_attempts_le env tp fp 3 1, outerAux_fetches_le env tp fp 3 1,
    ?_, outerAux_ops_subset env tp fp 3 1, outerAux_fail_attempts env tp fp 3 1⟩
  intro w hw
  rcases outerAux_waits env tp fp 3 1 (by omega) w hw with h | h | ⟨k, hk1, hk2, hk3⟩
  · left; exact h
  · right; exact h
  · have : k = 1 ∨ k = 2 := by omega
    rcases this with rfl | rfl
    · left; rw [hk3]; norm_num
    · right; rw [hk3]; norm_num

end QuackBus

namespace QuackBus

/-! ### Facts about the album per-track loop -/

theorem progressSeq_append (l₁ l₂ : List Event) :
    progressSeq (l₁ ++ l₂) = progressSeq l₁ ++ progressSeq l₂ :=
  List.filterMap_append l₁ l₂ _

theorem progressSeq_replicate (k : Nat) (id s : String) (p : Nat) :
    progressSeq (List.replicate k (Event.update id s p)) = List.replicate k p := by
  induction k with
  | zero => rfl
  | succ k ih =>
    simp only [List.replicate_succ, progressSeq, List.filterMap_cons] at ih ⊢
    rw [ih]

theorem progressSeq_cons_update (id s : String) (p : Nat) (l : List Event) :
    progressSeq (Event.update id s p :: l) = p :: progressSeq l := rfl

theorem progressSeq_cons_removed (id : String) (l : List Event) :
    progressSeq (Event.removed id :: l) = progressSeq l := rfl

/-- Counter bookkeeping of the per-track loop: starting from `done`
    completed tracks, every remaining track bumps exactly one of the two
    counters, and the completed counter never decreases. -/
theorem albumLoop_counts (id : String) (env : AlbumEnv) (n : Nat) :
    ∀ (ts : List AlbumTrack) (done : Nat),
      done ≤ (albumLoop id env n ts done).completed ∧
      (albumLoop id env n ts done).completed + (albumLoop id env n ts done).failed =
        done + ts.length := by
  intro ts
  induction ts with
  | nil => intro done; simp [albumLoop]
  | cons t rest ih =>
    intro done
    cases hr : (runTrackRetries t.att
        (stagingDirOf id env ++ [albumTrackTempName id t env.quality])
        (stagingDirOf id env ++ [albumTrackFileName t env.quality])).ok
    · have h := ih done
      simp only [albumLoop, hr, Bool.false_eq_true, if_false]
      refine ⟨h.1, ?_⟩
      simp only [List.length_cons]
      omega
    · have h := ih (done + 1)
      simp only [albumLoop, hr, if_true]
      refine ⟨by omega, ?_⟩
      simp only [List.length_cons]
      omega

/-- Monotonicity engine for the album progress trace: the loop's
    `download_update` progress values, followed by any suffix that is
    monotone from the loop's final progress, are monotone from the
    starting progress. -/
theorem albumLoop_mono (id : String) (env : AlbumEnv) (n : Nat) :
    ∀ (ts : List AlbumTrack) (done : Nat) (suffix : List Nat),
      monoFrom (jsRound ((albumLoop id env n ts done).completed * 100) n) suffix →
      monoFrom (jsRound (done * 100) n)
        (progressSeq (albumLoop id env n ts done).events ++ suffix) := by
  intro ts
  induction ts with
  | nil =>
    intro done suffix hs
    simpa [albumLoop, progressSeq] using hs
  | cons t rest ih =>
    intro done suffix hs
    cases hr : (runTrackRetries t.att
        (stagingDirOf id env ++ [albumTrackTempName id t env.quality])
        (stagingDirOf id env ++ [albumTrackFileName t env.quality])).ok
    · simp only [albumLoop, hr, Bool.false_eq_true, if_false] at hs ⊢
      rw [progressSeq_append, progressSeq_replicate, List.append_assoc]
      exact monoFrom_replicate_append _ (ih done suffix hs)
    · simp only [albumLoop, hr, if_true] at hs ⊢
      rw [progressSeq_append, progressSeq_replicate, progressSeq_cons_update,
        List.append_assoc]
      refine monoFrom_replicate_append _ ?_
      show monoFrom (jsRound (done * 100) n)
        (jsRound ((done + 1) * 100) n :: (progressSeq (albumLoop id env n rest (done + 1)).events ++ suffix))
      exact ⟨jsRound_mono (by omega), ih (done + 1) suffix hs⟩

/-- Range of the album progress trace: starting with `done` completed out
    of at most `n` tracks, every broadcast progress value is ≤ 100. -/
theorem albumLoop_progress_le (id : String) (env : AlbumEnv) (n : Nat) :
    ∀ (ts : List AlbumTrack) (done : Nat), done + ts.length ≤ n →
      ∀ x ∈ progressSeq (albumLoop id env n ts done).events, x ≤ 100 := by
  intro ts
  induction ts with
  | nil => intro done _ x hx; exact absurd hx (by simp [albumLoop, progressSeq])
  | cons t rest ih =>
    intro done hn x hx
    cases hr : (runTrackRetries t.att
        (stagingDirOf id env ++ [albumTrackTempName id t env.quality])
        (stagingDirOf id env ++ [albumTrackFileName t env.quality])).ok
    · simp only [albumLoop, hr, Bool.false_eq_true, if_false] at hx
      rw [progressSeq_append, progressSeq_replicate] at hx
      rcases List.mem_append.mp hx with hx | hx
      · have := List.eq_of_mem_replicate hx
        subst this
        exact jsRound_le_100 (by simp at hn; omega)
      · exact ih done (by simp at hn ⊢; omega) x hx
    · simp only [albumLoop, hr, if_true] at hx
      rw [progressSeq_append, progressSeq_replicate, progressSeq_cons_update] at hx
      rcases List.mem_append.mp hx with hx | hx
      · have := List.eq_of_mem_replicate hx
        subst this
        exact jsRound_le_100 (by simp at hn; omega)
      · rcases List.mem_cons.mp hx with rfl | hx
        · exact jsRound_le_100 (by simp at hn; omega)
        · exact ih (done + 1) (by simp at hn ⊢; omega) x hx

end QuackBus

namespace QuackBus

/-! ## Claim C7 — sanitize -/

/-- C7 (counterexample): the claim's iff fails in the only-if direction:
    the nonempty, present input `"Unknown"` also sanitises to the literal
    string `"Unknown"`. -/
theorem sanitizeUnknownCollision :
    ¬ (∀ s : Option (List Char),
         sanitize s = "Unknown".toList → s = none ∨ s = some []) := by
  intro h
  rcases h (some "Unknown".toList) (by decide) with hc | hc
  · exact Option.noConfusion hc
  · exact absurd (Option.some.inj hc) (by decide)

/-- C7 (amended): for every input, the sanitize output contains none of
    the characters `< > : " / \ | ? *`, has no run of multiple whitespace
    characters, and has length at most 80; and it is the literal string
    `"Unknown"` whenever the input was empty or absent (but not only
    then — `"Unknown"` itself also maps to `"Unknown"`). -/
theorem noWsRun_unknown : NoWsRun "Unknown".toList := by
  show NoWsRun ('U' :: 'n' :: 'k' :: 'n' :: 'o' :: 'w' :: 'n' :: [])
  unfold NoWsRun
  simp only [List.chain'_cons, List.chain'_singleton]
  decide

theorem sanitizeSpec (s : Option (List Char)) :
    (∀ c ∈ sanitize s, illegal c = false) ∧
    NoWsRun (sanitize s) ∧
    (sanitize s).length ≤ 80 ∧
    ((s = none ∨ s = some []) → sanitize s = "Unknown".toList) := by
  match s with
  | none => exact ⟨by decide, noWsRun_unknown, by decide, fun _ => rfl⟩
  | some [] => exact ⟨by decide, noWsRun_unknown, by decide, fun _ => rfl⟩
  | some (c :: cs) =>
    have hs : sanitize (some (c :: cs)) =
        (trimWs (collapseWs ((c :: cs).filter (fun x => !illegal x)))).take 80 := rfl
    refine ⟨?_, ?_, ?_, ?_⟩
    · intro x hx
      rcases mem_sanitize_some (by simp) hx with ⟨_, h⟩ | rfl
      · exact h
      · decide
    · rw [hs]
      exact noWsRun_prefix (noWsRun_trimWs (noWsRun_collapseWs _))
        (List.take_prefix _ _)
    · rw [hs]
      rw [List.length_take]
      omega
    · rintro (h | h) <;> simp at h

/-- C7 (witness): the amended statement evaluated at the absent input. -/
theorem sanitizeSpec_witness : sanitize none = "Unknown".toList :=
  (sanitizeSpec none).2.2.2 (Or.inl rfl)

/-! ## Claim C8 — quality table -/

/-- C8 (counterexample): an unrecognised quality value such as 8 gets the
    flac extension but the label `"Unknown Quality"`, not the value-7
    label `"Hi-Res 96kHz"` as claimed. -/
theorem qualityUnknownLabel :
    extensionFor 8 = "flac" ∧ getQualityName 8 = "Unknown Quality" ∧
    getQualityName 8 ≠ "Hi-Res 96kHz" := by decide

/-- C8 (amended): for quality values 5, 6, 7, 27 the label and extension
    match the table exactly; any other integer maps to the flac extension
    and the label `"Unknown Quality"` in server.js `getQualityName`, while
    only qobuzService `getQualityInfo` defaults fully to the value-7 row. -/
theorem qualityTableSpec :
    (getQualityName 5 = "MP3 320k" ∧ extensionFor 5 = "mp3") ∧
    (getQualityName 6 = "CD Quality" ∧ extensionFor 6 = "flac") ∧
    (getQualityName 7 = "Hi-Res 96kHz" ∧ extensionFor 7 = "flac") ∧
    (getQualityName 27 = "Hi-Res 192kHz" ∧ extensionFor 27 = "flac") ∧
    (∀ q : Int, q ≠ 5 → q ≠ 6 → q ≠ 7 → q ≠ 27 →
      extensionFor q = "flac" ∧ getQualityName q = "Unknown Quality" ∧
      getQualityInfo q = getQualityInfo 7) := by
  refine ⟨by decide, by decide, by decide, by decide, ?_⟩
  intro q h5 h6 h7 h27
  refine ⟨?_, ?_, ?_⟩ <;>
    simp [extensionFor, getQualityName, getQualityInfo, h5, h6, h7, h27]

/-- C8 (witness): the amended statement evaluated at quality 8. -/
theorem qualityTableSpec_witness :
    extensionFor 8 = "flac" ∧ getQualityName 8 = "Unknown Quality" ∧
    getQualityInfo 8 = getQualityInfo 7 :=
  qualityTableSpec.2.2.2.2 8 (by decide) (by decide) (by decide) (by decide)

/-! ## Claim C9 — job id uniqueness -/

/-- C9 (counterexample): two distinct track submissions accepted at the
    same millisecond receive the same generated id `download-{now}`, so
    one registry entry overwrites the other. -/
theorem submissionIdCollision :
    (⟨JobKind.track, 1000, 0⟩ : Submission) ≠ ⟨JobKind.track, 1000, 1⟩ ∧
    submissionId ⟨JobKind.track, 1000, 0⟩ = submissionId ⟨JobKind.track, 1000, 1⟩ :=
  ⟨by decide, rfl⟩

/-- C9 (amended): generated ids are distinct whenever the two submissions
    differ in kind or in acceptance millisecond; only same-kind
    submissions within one millisecond collide. -/
theorem submissionIdInjective (s₁ s₂ : Submission)
    (h : s₁.kind ≠ s₂.kind ∨ s₁.nowMs ≠ s₂.nowMs) :
    submissionId s₁ ≠ submissionId s₂ := by
  intro heq
  rcases hk1 : s₁.kind <;> rcases hk2 : s₂.kind <;>
    simp only [submissionId, hk1, hk2] at heq
  · have hd := congrArg String.data heq
    have := jsNumToString_injective (List.append_cancel_left hd)
    rcases h with h | h
    · rw [hk1, hk2] at h; exact h rfl
    · exact h this
  · have hd := congrArg String.data heq
    have h1 : ("download-".toList ++ jsNumToString s₁.nowMs).head? = some 'd' := rfl
    have h2 : ("album-".toList ++ jsNumToString s₂.nowMs).head? = some 'a' := rfl
    have := congrArg List.head? hd
    rw [h1, h2] at this
    exact absurd this (by decide)
  · have hd := congrArg String.data heq
    have h1 : ("album-".toList ++ jsNumToString s₁.nowMs).head? = some 'a' := rfl
    have h2 : ("download-".toList ++ jsNumToString s₂.nowMs).head? = some 'd' := rfl
    have := congrArg List.head? hd
    rw [h1, h2] at this
    exact absurd this (by decide)
  · have hd := congrArg String.data heq
    have := jsNumToString_injective (List.append_cancel_left hd)
    rcases h with h | h
    · rw [hk1, hk2] at h; exact h rfl
    · exact h this

/-- C9 (witness): two submissions one millisecond apart get distinct ids. -/
theorem submissionIdInjective_witness :
    submissionId ⟨JobKind.track, 1, 0⟩ ≠ submissionId ⟨JobKind.track, 2, 0⟩ :=
  submissionIdInjective ⟨JobKind.track, 1, 0⟩ ⟨JobKind.track, 2, 0⟩
    (Or.inr (by decide))

end QuackBus

namespace QuackBus

/-! ## Claim C1 — tagging-failure fallback -/

/-- A single-track environment whose payload fetch succeeds and whose
    ffmpeg invocation always hits the 30-second timeout. -/
def timeoutTrackEnv : TrackEnv :=
  ⟨⟨some "Song", some "Artist", some "Album", some 1, some 2020⟩, 7,
   true, true, TagOutcome.timeout⟩

/-- C1 (counterexample): a single-track job whose tagging step always
    times out ends `failed`, not `completed` — `startFileDownloadWithProcessing`
    has no fallback copy; the rejection from `processWithFFmpeg` goes
    straight to the catch block. -/
theorem singleTrackTimeoutFails :
    (runTrackJob "download-1" timeoutTrackEnv false).finalStatus = some "failed" ∧
    (runTrackJob "download-1" timeoutTrackEnv false).finalStatus ≠ some "completed" := by
  decide

/-- C1 (amended): on any tagging failure (process error or timeout) the
    single-track pipeline marks the job failed — no fallback copy runs on
    that path; the byte-for-byte fallback exists only in
    metadataService.embedMetadata (which server.js never invokes), where a
    tagging process error falls back to a copy whose output is
    byte-identical to the input and the call fails only when that copy
    also fails. -/
theorem taggingFailurePolicy :
    (∀ (id : String) (env : TrackEnv) (c : Bool),
       env.fetchOk = true → env.tag ≠ TagOutcome.ok →
       (runTrackJob id env c).finalStatus ≠ some "completed" ∧
       (c = false → (runTrackJob id env c).finalStatus = some "failed")) ∧
    (∀ input tagged : List Nat, embedMetadata false true input tagged = some input) ∧
    (∀ input tagged : List Nat, embedMetadata false false input tagged = none) := by
  refine ⟨?_, fun _ _ => rfl, fun _ _ => rfl⟩
  intro id env c hf ht
  match henv : env.tag, c with
  | TagOutcome.ok, _ => exact absurd henv ht
  | TagOutcome.procError, false =>
    constructor <;> simp [runTrackJob, runTrackJobTail, hf, henv]
  | TagOutcome.procError, true =>
    constructor
    · simp [runTrackJob, runTrackJobTail, hf, henv]
    · intro hc; exact absurd hc (by decide)
  | TagOutcome.timeout, false =>
    constructor <;> simp [runTrackJob, runTrackJobTail, hf, henv]
  | TagOutcome.timeout, true =>
    constructor
    · simp [runTrackJob, runTrackJobTail, hf, henv]
    · intro hc; exact absurd hc (by decide)

/-- C1 (witness): the amended statement at the always-timeout environment. -/
theorem taggingFailurePolicy_witness :
    (runTrackJob "download-9" timeoutTrackEnv false).finalStatus = some "failed" :=
  (taggingFailurePolicy.1 "download-9" timeoutTrackEnv false rfl (by decide)).2 rfl

/-! ## Claim C3 — per-track retry policy -/

/-- Per-track environment whose stream URL always resolves but whose
    payload fetch always fails. -/
def fetchAlwaysFailsAtt : TrackAttemptEnv :=
  ⟨fun _ => true, fun _ _ => false, fun _ _ => true⟩

/-- C3 (counterexample): with stream resolution succeeding and the
    payload fetch always failing, the track's download is attempted 9
    times, not at most 3 — the outer 3-attempt loop re-enters the inner
    3-attempt loop of `downloadSingleTrackForAlbumToTemp` — and no 8 s
    backoff wait ever occurs. -/
theorem trackRetriesNineAttempts :
    (runTrackRetries fetchAlwaysFailsAtt [] []).fetches = 9 ∧
    ¬ (runTrackRetries fetchAlwaysFailsAtt [] []).fetches ≤ 3 ∧
    8000 ∉ (runTrackRetries fetchAlwaysFailsAtt [] []).waits := by decide

/-- C3 (amended): per album track, stream-URL resolution is attempted at
    most 3 times; the payload download is retried up to 3 times inside
    each resolution attempt, hence attempted up to 9 times in total;
    every backoff wait is 2 s or 4 s (never 8 s); and a track that never
    succeeds consumed exactly 3 outer attempts before the engine gave up
    on it. -/
theorem albumTrackRetryPolicy (env : TrackAttemptEnv) (tp fp : Path) :
    (runTrackRetries env tp fp).outerAttempts ≤ 3 ∧
    (runTrackRetries env tp fp).fetches ≤ 9 ∧
    (∀ w ∈ (runTrackRetries env tp fp).waits, w = 2000 ∨ w = 4000) ∧
    ((runTrackRetries env tp fp).ok = false →
      (runTrackRetries env tp fp).outerAttempts = 3) := by
  obtain ⟨h1, h2, h3, _, h5⟩ := runTrackRetries_summary env tp fp
  exact ⟨h1, h2, h3, h5⟩

/-- C3 (witness): the amended statement at the always-failing fetch
    environment: the engine gave up after exactly 3 outer attempts. -/
theorem albumTrackRetryPolicy_witness :
    (runTrackRetries fetchAlwaysFailsAtt [] []).outerAttempts = 3 :=
  (albumTrackRetryPolicy fetchAlwaysFailsAtt [] []).2.2.2 (by decide)

/-! ## Claim C4 — partial album success -/

/-- Attempt environment where everything succeeds first try. -/
def allOkAtt : TrackAttemptEnv :=
  ⟨fun _ => true, fun _ _ => true, fun _ _ => true⟩

/-- Attempt environment whose stream-URL resolution always fails. -/
def resolveFailsAtt : TrackAttemptEnv :=
  ⟨fun _ => false, fun _ _ => true, fun _ _ => true⟩

/-- Five-track album where track 3 exhausts all retries (stream
    resolution keeps failing) and the other four succeed. -/
def fiveTrackAlbumEnv : AlbumEnv :=
  ⟨"Artist", "Album", none, 7, true,
   [⟨"t1", "One", 1, allOkAtt⟩,
    ⟨"t2", "Two", 2, allOkAtt⟩,
    ⟨"t3", "Three", 3, resolveFailsAtt⟩,
    ⟨"t4", "Four", 4, allOkAtt⟩,
    ⟨"t5", "Five", 5, allOkAtt⟩],
   true, true⟩

/-- C4: the five-track album with track 3 exhausting its retries reaches
    `completed` with 4 completed and 1 failed track, the final folder
    holds exactly the four tagged audio files plus Cover.jpg, and — in
    general — per-track failures never fail an album job (its terminal
    status depends only on the final folder promotion). -/
theorem albumPartialSuccess :
    (runAlbumJob "album-1" fiveTrackAlbumEnv).status = "completed" ∧
    (runAlbumJob "album-1" fiveTrackAlbumEnv).completedTracks = 4 ∧
    (runAlbumJob "album-1" fiveTrackAlbumEnv).failedTracks = 1 ∧
    (runAlbumJob "album-1" fiveTrackAlbumEnv).finalFolder =
      ["Cover.jpg", "01 - One.flac", "02 - Two.flac", "04 - Four.flac",
       "05 - Five.flac"] ∧
    (∀ (id : String) (env : AlbumEnv),
       env.moveOk = true ∨ env.copyOk = true →
       (runAlbumJob id env).status = "completed") := by
  refine ⟨by decide, by decide, by decide, by decide, ?_⟩
  intro id env h
  rcases hm : env.moveOk
  · rcases h with h | h
    · exact absurd hm (by rw [h]; decide)
    · simp [runAlbumJob, hm, h]
  · simp [runAlbumJob, hm]

/-- C4 (witness): the general clause applied to the concrete album. -/
theorem albumPartialSuccess_witness :
    (runAlbumJob "album-2" fiveTrackAlbumEnv).status = "completed" :=
  albumPartialSuccess.2.2.2.2 "album-2" fiveTrackAlbumEnv (Or.inl rfl)

end QuackBus

namespace QuackBus

/-! ### Helpers for the event-trace claims -/

theorem monoFrom_chain_cons : ∀ {l : List Nat} {p : Nat}, monoFrom p l →
    List.Chain' (fun a b => a ≤ b) (p :: l) := by
  intro l
  induction l with
  | nil => intro p _; simp
  | cons q rest ih =>
    intro p h
    rw [List.chain'_cons]
    exact ⟨h.1, ih h.2⟩

/-- Shape of an album job's progress trace: the creation broadcast at 0,
    the per-track loop's broadcasts, the `moving files` broadcast at the
    loop's final progress, then 100 on completion (or the unchanged final
    progress on promotion failure). -/
theorem runAlbumJob_progressSeq (id : String) (env : AlbumEnv) :
    progressSeq (runAlbumJob id env).events =
      0 :: progressSeq (albumLoop id env env.tracks.length env.tracks 0).events ++
      jsRound ((albumLoop id env env.tracks.length env.tracks 0).completed * 100)
          env.tracks.length ::
      (if env.moveOk || env.copyOk then [100]
       else [jsRound ((albumLoop id env env.tracks.length env.tracks 0).completed * 100)
          env.tracks.length]) := by
  rcases hm : env.moveOk
  · rcases hc : env.copyOk
    · simp [runAlbumJob, hm, hc, progressSeq, List.filterMap_append]
    · simp [runAlbumJob, hm, hc, progressSeq, List.filterMap_append]
  · simp [runAlbumJob, hm, progressSeq, List.filterMap_append]

/-- Every event broadcast by the per-track loop is a `download_update`
    for this job id. -/
theorem albumLoop_events_update (id : String) (env : AlbumEnv) (n : Nat) :
    ∀ (ts : List AlbumTrack) (done : Nat), ∀ e ∈ (albumLoop id env n ts done).events,
      ∃ s p, e = Event.update id s p := by
  intro ts
  induction ts with
  | nil => intro done e he; exact absurd he (by simp [albumLoop])
  | cons t rest ih =>
    intro done e he
    cases hr : (runTrackRetries t.att
        (stagingDirOf id env ++ [albumTrackTempName id t env.quality])
        (stagingDirOf id env ++ [albumTrackFileName t env.quality])).ok
    · simp only [albumLoop, hr, Bool.false_eq_true, if_false] at he
      rcases List.mem_append.mp he with he | he
      · exact ⟨_, _, List.eq_of_mem_replicate he⟩
      · exact ih done e he
    · simp only [albumLoop, hr, if_true] at he
      rcases List.mem_append.mp he with he | he
      · exact ⟨_, _, List.eq_of_mem_replicate he⟩
      · rcases List.mem_cons.mp he with rfl | he
        · exact ⟨_, _, rfl⟩
        · exact ih (done + 1) e he

/-- Number of `download_removed` events for a given id in a trace. -/
def removedCount (id : String) : List Event → Nat
  | [] => 0
  | Event.removed j :: rest => (if j = id then 1 else 0) + removedCount id rest
  | Event.update _ _ _ :: rest => removedCount id rest

/-! ## Claim C5 — progress monotonicity -/

/-- C5: for every single-track job (under any external outcomes and
    whether or not it was cancelled mid-flight) and every album job, the
    broadcast progress values are natural numbers at most 100 and form a
    non-decreasing sequence from creation to the terminal broadcast. -/
theorem progressMonotone :
    (∀ (id : String) (env : TrackEnv) (c : Bool),
       List.Chain' (fun a b => a ≤ b) (progressSeq (runTrackJob id env c).events) ∧
       ∀ x ∈ progressSeq (runTrackJob id env c).events, x ≤ 100) ∧
    (∀ (id : String) (env : AlbumEnv),
       List.Chain' (fun a b => a ≤ b) (progressSeq (runAlbumJob id env).events) ∧
       ∀ x ∈ progressSeq (runAlbumJob id env).events, x ≤ 100) := by
  constructor
  · intro id env c
    obtain ⟨m, q, f, cov, tg⟩ := env
    cases f <;> cases tg <;> cases c <;>
      constructor <;>
      simp [runTrackJob, runTrackJobTail, progressSeq, List.chain'_cons]
  · intro id env
    have hseq := runAlbumJob_progressSeq id env
    have hcounts := albumLoop_counts id env env.tracks.length env.tracks 0
    have hcompl : (albumLoop id env env.tracks.length env.tracks 0).completed ≤
        env.tracks.length := by omega
    have hsuffix : monoFrom
        (jsRound ((albumLoop id env env.tracks.length env.tracks 0).completed * 100)
          env.tracks.length)
        (jsRound ((albumLoop id env env.tracks.length env.tracks 0).completed * 100)
            env.tracks.length ::
          (if env.moveOk || env.copyOk then [100]
           else [jsRound ((albumLoop id env env.tracks.length env.tracks 0).completed * 100)
              env.tracks.length])) := by
      refine ⟨le_refl _, ?_⟩
      cases hb : (env.moveOk || env.copyOk)
      · simp only [hb, Bool.false_eq_true, if_false]
        exact ⟨le_refl _, trivial⟩
      · simp only [hb, if_true]
        exact ⟨jsRound_le_100 hcompl, trivial⟩
    have hmono := albumLoop_mono id env env.tracks.length env.tracks 0 _ hsuffix
    rw [Nat.zero_mul, jsRound_zero] at hmono
    constructor
    · rw [hseq]
      exact monoFrom_chain_cons hmono
    · intro x hx
      rw [hseq] at hx
      rcases List.mem_cons.mp hx with rfl | hx
      · omega
      · rcases List.mem_append.mp hx with hx | hx
        · exact albumLoop_progress_le id env env.tracks.length env.tracks 0
            (by omega) x hx
        · rcases List.mem_cons.mp hx with rfl | hx
          · exact jsRound_le_100 hcompl
          · cases hb : (env.moveOk || env.copyOk)
            · rw [hb] at hx
              simp only [Bool.false_eq_true, if_false] at hx
              rcases List.mem_singleton.mp hx with rfl
              exact jsRound_le_100 hcompl
            · rw [hb] at hx
              simp only [if_true] at hx
              rcases List.mem_singleton.mp hx with rfl
              omega

/-- C5 (witness): the track half of the claim at a concrete environment. -/
theorem progressMonotone_witness :
    List.Chain' (fun a b => a ≤ b)
      (progressSeq (runTrackJob "download-1" timeoutTrackEnv false).events) :=
  (progressMonotone.1 "download-1" timeoutTrackEnv false).1

/-! ## Claim C6 — cancellation contract -/

/-- Single-track environment where every external step succeeds. -/
def okTrackEnv : TrackEnv :=
  ⟨⟨some "Song", some "Artist", some "Album", some 1, none⟩, 7,
   true, true, TagOutcome.ok⟩

/-- C6 (counterexample): cancel an active job whose pipeline then
    completes: the status query no longer lists it, but TWO removal
    events are emitted for the id (one by the cancel endpoint, one by the
    completion eviction timer), the completion update is still broadcast,
    and the job is still recorded in history — in-flight results are not
    discarded on the success path. -/
theorem cancelDoubleRemoval :
    (cancelThenFinishTrack "download-1" okTrackEnv).1 = [] ∧
    removedCount "download-1" (cancelThenFinishTrack "download-1" okTrackEnv).2.1 = 2 ∧
    Event.update "download-1" "completed" 100 ∈
      (cancelThenFinishTrack "download-1" okTrackEnv).2.1 ∧
    (cancelThenFinishTrack "download-1" okTrackEnv).2.2 = ["download-1"] := by
  decide

/-- C6 (amended): after cancelling an active job id, an immediate status
    query no longer lists the id, and the cancel endpoint itself emits
    exactly one removal event; but the in-flight pipeline's results are
    discarded only when it fails (no terminal broadcast, no history
    entry, no further removal event) — if it completes, its completion is
    broadcast and recorded and a second removal event is emitted. -/
theorem cancelContract (id : String) (env : TrackEnv) :
    (cancelThenFinishTrack id env).1 = [] ∧
    (env.fetchOk = true → env.tag = TagOutcome.ok →
       removedCount id (cancelThenFinishTrack id env).2.1 = 2 ∧
       (cancelThenFinishTrack id env).2.2 = [id]) ∧
    ((env.fetchOk = false ∨ env.tag ≠ TagOutcome.ok) →
       removedCount id (cancelThenFinishTrack id env).2.1 = 1 ∧
       (cancelThenFinishTrack id env).2.2 = [] ∧
       ∀ s p, Event.update id s p ∈ (cancelThenFinishTrack id env).2.1 →
         s ≠ "failed" ∧ s ≠ "completed") := by
  obtain ⟨m, q, f, cov, tg⟩ := env
  refine ⟨by simp [cancelThenFinishTrack, cancelDownload, listActive], ?_, ?_⟩
  · intro hf ht
    cases f
    · exact Bool.noConfusion hf
    · cases tg
      · constructor
        · simp [cancelThenFinishTrack, cancelDownload, runTrackJobTail, removedCount]
        · simp [cancelThenFinishTrack, runTrackJobTail]
      · exact TagOutcome.noConfusion ht
      · exact TagOutcome.noConfusion ht
  · intro h
    cases f
    · refine ⟨?_, ?_, ?_⟩
      · simp [cancelThenFinishTrack, cancelDownload, runTrackJobTail, removedCount]
      · simp [cancelThenFinishTrack, runTrackJobTail]
      · intro s p hmem
        simp [cancelThenFinishTrack, cancelDownload, runTrackJobTail] at hmem
        rcases hmem with ⟨rfl, _⟩
        exact ⟨by decide, by decide⟩
    · have htg : tg ≠ TagOutcome.ok := by
        rcases h with h | h
        · exact Bool.noConfusion h
        · exact h
      cases tg
      · exact absurd rfl htg
      · refine ⟨?_, ?_, ?_⟩
        · simp [cancelThenFinishTrack, cancelDownload, runTrackJobTail, removedCount]
        · simp [cancelThenFinishTrack, runTrackJobTail]
        · intro s p hmem
          simp [cancelThenFinishTrack, cancelDownload, runTrackJobTail] at hmem
          rcases hmem with ⟨rfl, _⟩ | ⟨rfl, _⟩
          · exact ⟨by decide, by decide⟩
          · exact ⟨by decide, by decide⟩
      · refine ⟨?_, ?_, ?_⟩
        · simp [cancelThenFinishTrack, cancelDownload, runTrackJobTail, removedCount]
        · simp [cancelThenFinishTrack, runTrackJobTail]
        · intro s p hmem
          simp [cancelThenFinishTrack, cancelDownload, runTrackJobTail] at hmem
          rcases hmem with ⟨rfl, _⟩ | ⟨rfl, _⟩
          · exact ⟨by decide, by decide⟩
          · exact ⟨by decide, by decide⟩

/-- C6 (witness): the amended statement at a failing pipeline. -/
theorem cancelContract_witness :
    removedCount "download-3"
      (cancelThenFinishTrack "download-3" timeoutTrackEnv).2.1 = 1 :=
  ((cancelContract "download-3" timeoutTrackEnv).2.2 (Or.inr (by decide))).1

/-! ## Claim C10 — removal events -/

/-- C10: a job that ends `failed` never has a `download_removed` event in
    its trace (its eviction deletes the registry entry silently); the
    removal event is emitted exactly by completed jobs (their eviction
    timer) and by the explicit cancel endpoint. -/
theorem removalOnlyOnCompletionOrCancel :
    (∀ (id : String) (env : TrackEnv) (c : Bool),
       (runTrackJob id env c).finalStatus = some "failed" →
       Event.removed id ∉ (runTrackJob id env c).events) ∧
    (∀ (id : String) (env : TrackEnv) (c : Bool),
       (runTrackJob id env c).finalStatus = some "completed" →
       Event.removed id ∈ (runTrackJob id env c).events) ∧
    (∀ (id : String) (env : AlbumEnv),
       (runAlbumJob id env).status = "failed" →
       Event.removed id ∉ (runAlbumJob id env).events) ∧
    (∀ (id : String) (env : AlbumEnv),
       (runAlbumJob id env).status = "completed" →
       Event.removed id ∈ (runAlbumJob id env).events) ∧
    (∀ (reg : List String) (id : String), id ∈ reg →
       (cancelDownload reg id).2 = [Event.removed id]) := by
  refine ⟨?_, ?_, ?_, ?_, ?_⟩
  · intro id env c h
    obtain ⟨m, q, f, cov, tg⟩ := env
    cases f <;> cases tg <;> cases c <;>
      simp_all [runTrackJob, runTrackJobTail]
  · intro id env c h
    obtain ⟨m, q, f, cov, tg⟩ := env
    cases f <;> cases tg <;> cases c <;>
      simp_all [runTrackJob, runTrackJobTail]
  · intro id env h
    rcases hm : env.moveOk
    · rcases hc : env.copyOk
      · intro hmem
        simp only [runAlbumJob, hm, hc, Bool.false_eq_true, if_false] at hmem
        rcases List.mem_cons.mp hmem with heq | hmem
        · exact Event.noConfusion heq
        · rcases List.mem_append.mp hmem with hmem | hmem
          · rcases List.mem_append.mp hmem with hmem2 | hmem2
            · obtain ⟨s, p, heq⟩ :=
                albumLoop_events_update id env env.tracks.length env.tracks 0 _ hmem2
              exact Event.noConfusion heq
            · simp at hmem2
          · simp at hmem
      · rw [show (runAlbumJob id env).status = "completed" by
            simp [runAlbumJob, hm, hc]] at h
        exact absurd h (by decide)
    · rw [show (runAlbumJob id env).status = "completed" by
          simp [runAlbumJob, hm]] at h
      exact absurd h (by decide)
  · intro id env h
    rcases hm : env.moveOk
    · rcases hc : env.copyOk
      · rw [show (runAlbumJob id env).status = "failed" by
            simp [runAlbumJob, hm, hc]] at h
        exact absurd h (by decide)
      · simp [runAlbumJob, hm, hc]
    · simp [runAlbumJob, hm]
  · intro reg id h
    simp [cancelDownload, h]

/-- C10 (witness): the cancel endpoint emits the removal event for a
    registered id. -/
theorem removalOnlyOnCompletionOrCancel_witness :
    (cancelDownload ["j1"] "j1").2 = [Event.removed "j1"] :=
  removalOnlyOnCompletionOrCancel.2.2.2.2 ["j1"] "j1" (by simp)

end QuackBus

namespace QuackBus

/-! ## Claim C2 — tag-in-temp-then-promote -/

/-- Promotion operations: a directory move or its recursive-copy fallback. -/
def isPromotionOp : FsOp → Bool
  | FsOp.moveDir _ _ => true
  | FsOp.copyDir _ _ => true
  | _ => false

/-- Every ffmpeg invocation of the album per-track loop produces its
    output inside the staging directory. -/
theorem albumLoop_tag_staging (id : String) (env : AlbumEnv) (n : Nat) :
    ∀ (ts : List AlbumTrack) (done : Nat) (i o : Path),
      FsOp.ffmpegTag i o ∈ (albumLoop id env n ts done).ops →
      ∃ name, o = stagingDirOf id env ++ [name] := by
  intro ts
  induction ts with
  | nil => intro done i o h; exact absurd h (by simp [albumLoop])
  | cons t rest ih =>
    intro done i o h
    have hsub : ∀ op ∈ (runTrackRetries t.att
        (stagingDirOf id env ++ [albumTrackTempName id t env.quality])
        (stagingDirOf id env ++ [albumTrackFileName t env.quality])).ops,
        op ∈ innerAttemptOps
          (stagingDirOf id env ++ [albumTrackTempName id t env.quality])
          (stagingDirOf id env ++ [albumTrackFileName t env.quality]) :=
      (runTrackRetries_summary _ _ _).2.2.2.1
    cases hr : (runTrackRetries t.att
        (stagingDirOf id env ++ [albumTrackTempName id t env.quality])
        (stagingDirOf id env ++ [albumTrackFileName t env.quality])).ok
    · simp only [albumLoop, hr, Bool.false_eq_true, if_false] at h
      rcases List.mem_append.mp h with h | h
      · have := hsub _ h
        simp only [innerAttemptOps, List.mem_cons, List.mem_singleton] at this
        rcases this with heq | heq | heq
        · exact FsOp.noConfusion heq
        · obtain ⟨_, rfl⟩ := FsOp.ffmpegTag.inj heq
          exact ⟨albumTrackFileName t env.quality, rfl⟩
        · rcases heq with heq | heq
          · exact FsOp.noConfusion heq
          · exact absurd heq (by simp)
      · exact ih done i o h
    · simp only [albumLoop, hr, if_true] at h
      rcases List.mem_append.mp h with h | h
      · have := hsub _ h
        simp only [innerAttemptOps, List.mem_cons, List.mem_singleton] at this
        rcases this with heq | heq | heq
        · exact FsOp.noConfusion heq
        · obtain ⟨_, rfl⟩ := FsOp.ffmpegTag.inj heq
          exact ⟨albumTrackFileName t env.quality, rfl⟩
        · rcases heq with heq | heq
          · exact FsOp.noConfusion heq
          · exact absurd heq (by simp)
      · exact ih (done + 1) i o h

/-- C2 (counterexample): in a successful single-track job, the ffmpeg
    invocation's output path is the final library path itself — the file
    inside the target album folder is written by the tagger directly —
    and no promotion (move or copy) into the final location exists in the
    pipeline's operation trace. -/
theorem singleTrackTagsFinalDirectly :
    FsOp.ffmpegTag (tempRoot ++ ["download-1.flac"])
        (musicRoot ++ ["Artist - Album", "01 - Song.flac"]) ∈
      (runTrackJob "download-1" okTrackEnv false).ops ∧
    (∀ op ∈ (runTrackJob "download-1" okTrackEnv false).ops,
      isPromotionOp op = false) := by
  decide

/-- C2 (amended): the claimed invariant holds for album jobs — every
    ffmpeg invocation tags into the temp staging directory, and the
    finished folder is promoted by a directory move afterwards — but not
    for single-track jobs, whose tagger writes the final file directly
    inside the target album folder in the music library. -/
theorem taggingWriteTargets :
    (∀ (id : String) (env : AlbumEnv) (i o : Path),
       FsOp.ffmpegTag i o ∈ (runAlbumJob id env).ops →
       ∃ name, o = stagingDirOf id env ++ [name]) ∧
    (∀ (id : String) (env : AlbumEnv), env.moveOk = true →
       FsOp.moveDir (stagingDirOf id env) (finalDirOf env) ∈
         (runAlbumJob id env).ops) ∧
    (∀ (id : String) (env : TrackEnv) (c : Bool) (i o : Path),
       FsOp.ffmpegTag i o ∈ (runTrackJob id env c).ops →
       o = musicRoot ++ [trackAlbumFolderOf env.meta,
         trackFileNameOf env.meta env.quality]) := by
  refine ⟨?_, ?_, ?_⟩
  · intro id env i o h
    have hcases : ∀ op ∈ (runAlbumJob id env).ops,
        op ∈ (albumLoop id env env.tracks.length env.tracks 0).ops ∨
        op = FsOp.ensureDir (stagingDirOf id env) ∨
        op = FsOp.writeFile (stagingDirOf id env ++ ["Cover.jpg"]) ∨
        op = FsOp.moveDir (stagingDirOf id env) (finalDirOf env) ∨
        op = FsOp.copyDir (stagingDirOf id env) (finalDirOf env) ∨
        op = FsOp.remove (tempAlbumRootOf id) ∨
        op = FsOp.remove (stagingDirOf id env) := by
      intro op hop
      rcases hm : env.moveOk <;> rcases hc : env.copyOk <;>
        rcases hcov : env.coverOk <;>
        simp only [runAlbumJob, hm, hc, hcov, Bool.false_eq_true, if_false,
          if_true, List.cons_append, List.nil_append, List.mem_cons,
          List.mem_append, List.mem_singleton] at hop <;>
        tauto
    rcases hcases _ h with h | h | h | h | h | h | h
    · exact albumLoop_tag_staging id env env.tracks.length env.tracks 0 i o h
    · exact FsOp.noConfusion h
    · exact FsOp.noConfusion h
    · exact FsOp.noConfusion h
    · exact FsOp.noConfusion h
    · exact FsOp.noConfusion h
    · exact FsOp.noConfusion h
  · intro id env h
    rcases hc : env.coverOk <;>
      simp [runAlbumJob, h, hc]
  · intro id env c i o h
    obtain ⟨m, q, f, cov, tg⟩ := env
    cases f <;> cases cov <;> cases tg <;> cases c <;>
      simp [runTrackJob, runTrackJobTail] at h ⊢ <;>
      exact h.2

/-- Single-track album whose sole track succeeds immediately. -/
def oneTrackAlbumEnv : AlbumEnv :=
  ⟨"A", "B", none, 7, true, [⟨"t1", "T", 1, allOkAtt⟩], true, true⟩

/-- C2 (witness): the amended statement's promotion clause at a concrete
    album job. -/
theorem taggingWriteTargets_witness :
    FsOp.moveDir (stagingDirOf "album-9" oneTrackAlbumEnv)
        (finalDirOf oneTrackAlbumEnv) ∈
      (runAlbumJob "album-9" oneTrackAlbumEnv).ops :=
  taggingWriteTargets.2.1 "album-9" oneTrackAlbumEnv rfl

end QuackBus
